import Mathlib

/-!
Shallow embedding of `src/cs107_creativename/Reverse.py`, a reverse-mode
automatic-differentiation engine.  Python object identity is modelled by an
arena: the state is a `List Node`, and a node is referred to by its index,
which is its creation order (every operation appends the new result node at
the end of the list).  Raised Python exceptions are modelled with `Except`.
Real numbers stand for Python floats/ints.
-/

/-- Python exceptions raised by the engine.  `typeError` is `TypeError`;
`dimMismatch` is `Exception("provided value doesn't match the input dimension of f")`;
`lenMismatch` is `Exception("function list length doesn't match value list length")`;
`recursionError` models Python's `RecursionError` (only reachable on a
cyclic graph, which the engine never builds). -/
inductive PyErr where
  | typeError
  | dimMismatch
  | lenMismatch
  | recursionError
  deriving DecidableEq

set_option linter.constructorNameAsVariable false

noncomputable section

/-- The runtime type of an operand handed to a `Node` operator: a real
number (Python `int` or `float`), a reference to another `Node` (its arena
index), or any other Python object. -/
inductive PyObj where
  | num (x : ℝ)
  | node (i : Nat)
  | other

/-- One graph node: `val` is the scalar value, `children` the ordered list of
`(child index, partial derivative)` pairs, `der` the memoized gradient
(`none` is Python's `None`). -/
structure Node where
  val : ℝ
  children : List (Nat × ℝ)
  der : Option ℝ

instance : Inhabited Node := ⟨⟨0, [], none⟩⟩

/-- Arena lookup (Python attribute access through an object reference). -/
def getN : List Node → Nat → Node
  | [], _ => default
  | n :: _, 0 => n
  | _ :: rest, i + 1 => getN rest i

/-- Arena update (Python attribute mutation through an object reference). -/
def setN : List Node → Nat → Node → List Node
  | [], _, _ => []
  | _ :: rest, 0, m => m :: rest
  | n :: rest, i + 1, m => n :: setN rest i m

/-- `self.children.append((child, partial))` on the node at index `i`. -/
def appendChild (st : List Node) (i : Nat) (c : Nat × ℝ) : List Node :=
  setN st i { getN st i with children := (getN st i).children ++ [c] }

/-- `self.der = d` on the node at index `i`. -/
def setDer (st : List Node) (i : Nat) (d : ℝ) : List Node :=
  setN st i { getN st i with der := some d }

/-- `Node.__init__`: accepts an `int` or `float` value and builds a node with
an empty children list and derivative `None`; any other value raises
`TypeError`. -/
def Node.init (v : PyObj) : Except PyErr Node :=
  match v with
  | .num x => .ok { val := x, children := [], der := none }
  | _ => .error .typeError

/-- `Node.__add__` on the node at index `i`. -/
def nodeAdd (st : List Node) (i : Nat) (other : PyObj) :
    Except PyErr (List Node × Nat) :=
  match other with
  | .num c =>
      let k := st.length
      let st1 := st ++ [{ val := (getN st i).val + c, children := [], der := none }]
      .ok (appendChild st1 i (k, 1), k)
  | .node j =>
      let k := st.length
      let st1 := st ++ [{ val := (getN st i).val + (getN st j).val, children := [], der := none }]
      .ok (appendChild (appendChild st1 i (k, 1)) j (k, 1), k)
  | .other => .error .typeError

/-- `Node.__radd__` delegates to `__add__`. -/
def nodeRadd (st : List Node) (i : Nat) (other : PyObj) :
    Except PyErr (List Node × Nat) :=
  nodeAdd st i other

/-- `Node.__mul__` on the node at index `i`. -/
def nodeMul (st : List Node) (i : Nat) (other : PyObj) :
    Except PyErr (List Node × Nat) :=
  match other with
  | .num c =>
      let k := st.length
      let st1 := st ++ [{ val := (getN st i).val * c, children := [], der := none }]
      .ok (appendChild st1 i (k, c), k)
  | .node j =>
      let k := st.length
      let st1 := st ++ [{ val := (getN st i).val * (getN st j).val, children := [], der := none }]
      .ok (appendChild (appendChild st1 i (k, (getN st j).val)) j (k, (getN st i).val), k)
  | .other => .error .typeError

/-- `Node.__rmul__` delegates to `__mul__`. -/
def nodeRmul (st : List Node) (i : Nat) (other : PyObj) :
    Except PyErr (List Node × Nat) :=
  nodeMul st i other

/-- `Node.__truediv__` on the node at index `i`. -/
def nodeTruediv (st : List Node) (i : Nat) (other : PyObj) :
    Except PyErr (List Node × Nat) :=
  match other with
  | .num c =>
      let k := st.length
      let st1 := st ++ [{ val := (getN st i).val / c, children := [], der := none }]
      .ok (appendChild st1 i (k, 1 / c), k)
  | .node j =>
      let k := st.length
      let st1 := st ++ [{ val := (getN st i).val / (getN st j).val, children := [], der := none }]
      .ok (appendChild (appendChild st1 i (k, 1 / (getN st j).val)) j
            (k, -(getN st i).val / (getN st j).val ^ (2 : ℕ)), k)
  | .other => .error .typeError

/-- `Node.__rtruediv__` on the node at index `i` (constant / Node). -/
def nodeRtruediv (st : List Node) (i : Nat) (other : PyObj) :
    Except PyErr (List Node × Nat) :=
  match other with
  | .num c =>
      let k := st.length
      let st1 := st ++ [{ val := c / (getN st i).val, children := [], der := none }]
      .ok (appendChild st1 i (k, -c / (getN st i).val ^ (2 : ℕ)), k)
  | _ => .error .typeError

/-- `Node.__sub__` on the node at index `i`. -/
def nodeSub (st : List Node) (i : Nat) (other : PyObj) :
    Except PyErr (List Node × Nat) :=
  match other with
  | .num c =>
      let k := st.length
      let st1 := st ++ [{ val := (getN st i).val - c, children := [], der := none }]
      .ok (appendChild st1 i (k, 1), k)
  | .node j =>
      let k := st.length
      let st1 := st ++ [{ val := (getN st i).val - (getN st j).val, children := [], der := none }]
      .ok (appendChild (appendChild st1 i (k, 1)) j (k, -1), k)
  | .other => .error .typeError

/-- `Node.__rsub__` on the node at index `i` (constant − Node). -/
def nodeRsub (st : List Node) (i : Nat) (other : PyObj) :
    Except PyErr (List Node × Nat) :=
  match other with
  | .num c =>
      let k := st.length
      let st1 := st ++ [{ val := c - (getN st i).val, children := [], der := none }]
      .ok (appendChild st1 i (k, -1), k)
  | _ => .error .typeError

/-- `Node.__pow__` on the node at index `i`.  Python's float `**` and
`math.log` are modelled by `Real.rpow` and `Real.log`.  Note the source
appends to the exponent node the weight
`self.val ** other.val * math.log(other.val)` — the logarithm of the
exponent's value. -/
def nodePow (st : List Node) (i : Nat) (other : PyObj) :
    Except PyErr (List Node × Nat) :=
  match other with
  | .num c =>
      let k := st.length
      let st1 := st ++ [{ val := Real.rpow (getN st i).val c, children := [], der := none }]
      .ok (appendChild st1 i (k, c * Real.rpow (getN st i).val (c - 1)), k)
  | .node j =>
      let k := st.length
      let st1 := st ++
        [{ val := Real.rpow (getN st i).val (getN st j).val, children := [], der := none }]
      .ok (appendChild
            (appendChild st1 i
              (k, (getN st j).val * Real.rpow (getN st i).val ((getN st j).val - 1)))
            j
            (k, Real.rpow (getN st i).val (getN st j).val * Real.log (getN st j).val), k)
  | .other => .error .typeError

/-- `Node.__rpow__` on the node at index `i` (constant ** Node). -/
def nodeRpow (st : List Node) (i : Nat) (other : PyObj) :
    Except PyErr (List Node × Nat) :=
  match other with
  | .num c =>
      let k := st.length
      let st1 := st ++ [{ val := Real.rpow c (getN st i).val, children := [], der := none }]
      .ok (appendChild st1 i (k, Real.rpow c (getN st i).val * Real.log c), k)
  | _ => .error .typeError

/-- `Node.__neg__` delegates to `self.__mul__(-1)`. -/
def nodeNeg (st : List Node) (i : Nat) : Except PyErr (List Node × Nat) :=
  nodeMul st i (.num (-1))

/-- `Node.__lt__`: compares values; raises `TypeError` otherwise. -/
def nodeLt (st : List Node) (i : Nat) (other : PyObj) : Except PyErr Prop :=
  match other with
  | .num c => .ok ((getN st i).val < c)
  | .node j => .ok ((getN st i).val < (getN st j).val)
  | .other => .error .typeError

/-- `Node.__gt__`: compares values; raises `TypeError` otherwise. -/
def nodeGt (st : List Node) (i : Nat) (other : PyObj) : Except PyErr Prop :=
  match other with
  | .num c => .ok ((getN st i).val > c)
  | .node j => .ok ((getN st i).val > (getN st j).val)
  | .other => .error .typeError

/-- `Node.__le__`: compares values; raises `TypeError` otherwise. -/
def nodeLe (st : List Node) (i : Nat) (other : PyObj) : Except PyErr Prop :=
  match other with
  | .num c => .ok ((getN st i).val ≤ c)
  | .node j => .ok ((getN st i).val ≤ (getN st j).val)
  | .other => .error .typeError

/-- `Node.__ge__`: compares values; raises `TypeError` otherwise. -/
def nodeGe (st : List Node) (i : Nat) (other : PyObj) : Except PyErr Prop :=
  match other with
  | .num c => .ok ((getN st i).val ≥ c)
  | .node j => .ok ((getN st i).val ≥ (getN st j).val)
  | .other => .error .typeError

mutual

/-- Structural equality of two nodes, mirroring the recursion of Python's
tuple/list `==` through `self.children == other.children` (child nodes are
compared with `Node.__eq__` again).  The fuel bounds the recursion depth;
on the acyclic graphs the engine builds, `st.length + 1` is always enough. -/
def nodeEqF : Nat → List Node → Nat → Nat → Prop
  | 0, _, _, _ => False
  | fuel + 1, st, i, j =>
      (getN st i).val = (getN st j).val ∧
      (getN st i).der = (getN st j).der ∧
      childrenEqF fuel st (getN st i).children (getN st j).children
termination_by fuel _ _ _ => (fuel, 0)

/-- Pairwise comparison of two children lists (Python list `==`). -/
def childrenEqF : Nat → List Node → List (Nat × ℝ) → List (Nat × ℝ) → Prop
  | _, _, [], [] => True
  | fuel, st, (c, w) :: rest, (c', w') :: rest' =>
      nodeEqF fuel st c c' ∧ w = w' ∧ childrenEqF fuel st rest rest'
  | _, _, _, _ => False
termination_by fuel _ l _ => (fuel, l.length + 1)

end

/-- `Node.__eq__`: for a `Node` operand compares value, cached derivative,
and children lists; for anything else (numbers included) returns `False`
without raising. -/
def nodeEq (st : List Node) (i : Nat) (other : PyObj) : Except PyErr Prop :=
  match other with
  | .node j => .ok (nodeEqF (st.length + 1) st i j)
  | _ => .ok False

/-- `Node.__ne__`: `not self.__eq__(other)`. -/
def nodeNe (st : List Node) (i : Nat) (other : PyObj) : Except PyErr Prop :=
  (nodeEq st i other).map (fun p => ¬ p)

/-- One pass of the list comprehension inside `get_gradient`: calls `gg`
(the recursive `get_gradient` at one less fuel) on each child in order,
threading the mutated state, and adds up `child.get_gradient() * partial`.
`none` propagates fuel exhaustion (Python's `RecursionError`). -/
def sumChildren (gg : List Node → Nat → List Node × Option ℝ) :
    List Node → List (Nat × ℝ) → List Node × Option ℝ
  | st, [] => (st, some 0)
  | st, (c, w) :: rest =>
      match gg st c with
      | (st1, none) => (st1, none)
      | (st1, some g) =>
          match sumChildren gg st1 rest with
          | (st2, none) => (st2, none)
          | (st2, some s) => (st2, some (g * w + s))

/-- `Node.get_gradient` on the node at index `i`: if `self.der` is set,
return it unchanged; otherwise recursively sum the children's gradients
times their partials, store the sum in `self.der`, and return it.  The
fuel bounds recursion depth; on the acyclic graphs the engine builds,
`st.length` is always enough (proved below). -/
def getGradientF : Nat → List Node → Nat → List Node × Option ℝ
  | 0, st, _ => (st, none)
  | fuel + 1, st, i =>
      match (getN st i).der with
      | some d => (st, some d)
      | none =>
          match sumChildren (getGradientF fuel) st (getN st i).children with
          | (st1, none) => (st1, none)
          | (st1, some s) => (setDer st1 i s, some s)

/-- `Node._AutoDiffR`'s loop body: reads each requested variable's gradient
in order, threading the state.  Fuel exhaustion (impossible on engine-built
graphs) surfaces as `recursionError`. -/
def autoDiffRGo : List Node → List Nat → Except PyErr (List ℝ)
  | _, [] => .ok []
  | st, v :: rest =>
      match getGradientF (st.length + 1) st v with
      | (_, none) => .error .recursionError
      | (st1, some g) => (autoDiffRGo st1 rest).map (fun gs => g :: gs)

/-- `Node._AutoDiffR` on the output node at index `out`: seeds
`self.der = 1`, then collects `var.get_gradient()` for each variable. -/
def autoDiffRMethod (st : List Node) (out : Nat) (vars : List Nat) :
    Except PyErr (List ℝ) :=
  autoDiffRGo (setDer st out 1) vars

/-- A Python function as the driver sees it: a declared positional-parameter
count (what `len(signature(f).parameters)` returns) and a body that, given
the arena and the indices of the argument nodes, builds the graph through
the overloaded operators and returns the index of the output node (or
raises). -/
structure PyFunc where
  arity : Nat
  body : List Node → List Nat → Except PyErr (List Node × Nat)

/-- The first argument of `AutoDiffR1D`: either an introspectable function
or an object on which `signature` fails. -/
inductive PyCallable where
  | fn (f : PyFunc)
  | notCallable

/-- `AutoDiffR1D(f, val)`: arity introspection (raising `TypeError` when it
fails), dimension check, leaf-node construction, graph construction by
calling `f`, then the reverse pass `_AutoDiffR`. -/
def AutoDiffR1D (f : PyCallable) (val : List ℝ) : Except PyErr (List ℝ) :=
  match f with
  | .notCallable => .error .typeError
  | .fn f =>
      if f.arity ≠ val.length then .error .dimMismatch
      else
        match f.body (val.map fun x => { val := x, children := [], der := none })
              (List.range val.length) with
        | .error e => .error e
        | .ok (st1, out) => autoDiffRMethod st1 out (List.range val.length)

/-- The argument pair of `AutoDiffR`: either a single function with one
point, or a `list` of functions with a list of points (the `isinstance(f_list, list)`
dispatch). -/
inductive PyInput where
  | one (f : PyCallable) (val : List ℝ)
  | many (fs : List PyCallable) (vals : List (List ℝ))

/-- The two result shapes of `AutoDiffR`. -/
inductive PyOutput where
  | one (g : List ℝ)
  | many (gs : List (List ℝ))

/-- The `for f, val in zip(f_list, val_list)` loop of `AutoDiffR`,
accumulating `AutoDiffR1D(f, val)` results in order. -/
def autoDiffRList : List (PyCallable × List ℝ) → Except PyErr (List (List ℝ))
  | [] => .ok []
  | (f, v) :: rest =>
      match AutoDiffR1D f v with
      | .error e => .error e
      | .ok g => (autoDiffRList rest).map (fun gs => g :: gs)

/-- `AutoDiffR(f_list, val_list)`: list input dispatches to the zip loop
after the length check; a single function delegates to `AutoDiffR1D`. -/
def AutoDiffR : PyInput → Except PyErr PyOutput
  | .one f v => (AutoDiffR1D f v).map .one
  | .many fs vals =>
      if fs.length ≠ vals.length then .error .lenMismatch
      else (autoDiffRList (fs.zip vals)).map .many

/-! ### Concrete user functions and graph invariants -/

/-- The shared-subexpression example `f(x) = (x + x) * (x + x)`: Python
evaluates `x + x` twice (each consuming the same input node twice), then
multiplies the two intermediate nodes. -/
def fDiamond : PyFunc where
  arity := 1
  body := fun st xs =>
    match xs with
    | [i] =>
        match nodeAdd st i (.node i) with
        | .error e => .error e
        | .ok (st1, t1) =>
            match nodeAdd st1 i (.node i) with
            | .error e => .error e
            | .ok (st2, t2) => nodeMul st2 t1 (.node t2)
    | _ => .error .typeError

/-- The quotient example `f(x, y) = x / y`. -/
def fDiv : PyFunc where
  arity := 2
  body := fun st xs =>
    match xs with
    | [i, j] => nodeTruediv st i (.node j)
    | _ => .error .typeError

/-- The identity function `f(x) = x` (arity 1, returns its input node). -/
def fId1 : PyFunc where
  arity := 1
  body := fun st xs =>
    match xs with
    | [i] => .ok (st, i)
    | _ => .error .typeError

/-- The construction invariant: every edge points from a node to a
strictly-later-created node that exists in the arena. -/
def EdgesForward (st : List Node) : Prop :=
  ∀ i, ∀ p ∈ (getN st i).children, i < p.1 ∧ p.1 < st.length

/-- The edge relation of the graph: `NodeEdge st i j` holds when node `i`
has an edge to node `j`. -/
def NodeEdge (st : List Node) (i j : Nat) : Prop :=
  ∃ w, (j, w) ∈ (getN st i).children

/-- `Σ over (successor, weight) in l of successor.der * weight`, reading the
cached derivatives in state `st` (`0` for an unset one). -/
def sumOver (st : List Node) (l : List (Nat × ℝ)) : ℝ :=
  (l.map fun p => ((getN st p.1).der).getD 0 * p.2).sum

/-- Two states with the same length and the same value and children at every
index (they may differ in cached derivatives). -/
def ShapeEq (st st' : List Node) : Prop :=
  st'.length = st.length ∧
    ∀ j, (getN st' j).val = (getN st j).val ∧
      (getN st' j).children = (getN st j).children

/-- A Python operand is a live object: a `Node` operand must actually be in
the arena. -/
def OperandOK (st : List Node) : PyObj → Prop
  | .node j => j < st.length
  | _ => True

/-- The states reachable by constructing nodes and applying the overloaded
arithmetic operations to live nodes: exactly the graphs the engine builds
before any gradient is read. -/
inductive Built : List Node → Prop where
  | leaves (vals : List ℝ) :
      Built (vals.map fun x => { val := x, children := [], der := none })
  | init (st : List Node) (x : ℝ) (h : Built st) :
      Built (st ++ [{ val := x, children := [], der := none }])
  | add (st st' : List Node) (i k : Nat) (o : PyObj) (h : Built st)
      (hi : i < st.length) (ho : OperandOK st o)
      (he : nodeAdd st i o = .ok (st', k)) : Built st'
  | mul (st st' : List Node) (i k : Nat) (o : PyObj) (h : Built st)
      (hi : i < st.length) (ho : OperandOK st o)
      (he : nodeMul st i o = .ok (st', k)) : Built st'
  | truediv (st st' : List Node) (i k : Nat) (o : PyObj) (h : Built st)
      (hi : i < st.length) (ho : OperandOK st o)
      (he : nodeTruediv st i o = .ok (st', k)) : Built st'
  | rtruediv (st st' : List Node) (i k : Nat) (o : PyObj) (h : Built st)
      (hi : i < st.length)
      (he : nodeRtruediv st i o = .ok (st', k)) : Built st'
  | sub (st st' : List Node) (i k : Nat) (o : PyObj) (h : Built st)
      (hi : i < st.length) (ho : OperandOK st o)
      (he : nodeSub st i o = .ok (st', k)) : Built st'
  | rsub (st st' : List Node) (i k : Nat) (o : PyObj) (h : Built st)
      (hi : i < st.length)
      (he : nodeRsub st i o = .ok (st', k)) : Built st'
  | pow (st st' : List Node) (i k : Nat) (o : PyObj) (h : Built st)
      (hi : i < st.length) (ho : OperandOK st o)
      (he : nodePow st i o = .ok (st', k)) : Built st'
  | rpow (st st' : List Node) (i k : Nat) (o : PyObj) (h : Built st)
      (hi : i < st.length)
      (he : nodeRpow st i o = .ok (st', k)) : Built st'
  | neg (st st' : List Node) (i k : Nat) (h : Built st)
      (hi : i < st.length)
      (he : nodeNeg st i = .ok (st', k)) : Built st'

/-! ### Arena lemmas -/

theorem length_setN (st : List Node) (i : Nat) (m : Node) :
    (setN st i m).length = st.length := by
  induction st generalizing i with
  | nil => rfl
  | cons n rest ih =>
      cases i with
      | zero => rfl
      | succ i => simpa [setN] using ih i

theorem setN_oob (st : List Node) (i : Nat) (m : Node) (h : st.length ≤ i) :
    setN st i m = st := by
  induction st generalizing i with
  | nil => rfl
  | cons n rest ih =>
      cases i with
      | zero => exact absurd h (by simp)
      | succ i => simp [setN, ih i (by simpa using h)]

theorem getN_setN_self (st : List Node) (i : Nat) (m : Node) (h : i < st.length) :
    getN (setN st i m) i = m := by
  induction st generalizing i with
  | nil => exact absurd h (by simp)
  | cons n rest ih =>
      cases i with
      | zero => rfl
      | succ i => simpa [setN, getN] using ih i (by simpa using h)

theorem getN_setN_ne (st : List Node) (i j : Nat) (m : Node) (h : j ≠ i) :
    getN (setN st i m) j = getN st j := by
  induction st generalizing i j with
  | nil => rfl
  | cons n rest ih =>
      cases i with
      | zero =>
          cases j with
          | zero => exact absurd rfl h
          | succ j => rfl
      | succ i =>
          cases j with
          | zero => rfl
          | succ j => simpa [setN, getN] using ih i j (by simpa using h)

theorem getN_append_left (st l : List Node) (i : Nat) (h : i < st.length) :
    getN (st ++ l) i = getN st i := by
  induction st generalizing i with
  | nil => exact absurd h (by simp)
  | cons n rest ih =>
      cases i with
      | zero => rfl
      | succ i => simpa [getN] using ih i (by simpa using h)

theorem getN_append_len (st : List Node) (n : Node) (l : List Node) :
    getN (st ++ n :: l) st.length = n := by
  induction st with
  | nil => rfl
  | cons m rest ih => simpa [getN] using ih

theorem length_appendChild (st : List Node) (i : Nat) (c : Nat × ℝ) :
    (appendChild st i c).length = st.length := length_setN ..

theorem length_setDer (st : List Node) (i : Nat) (d : ℝ) :
    (setDer st i d).length = st.length := length_setN ..

theorem getN_appendChild_self (st : List Node) (i : Nat) (c : Nat × ℝ)
    (h : i < st.length) :
    getN (appendChild st i c) i =
      { getN st i with children := (getN st i).children ++ [c] } :=
  getN_setN_self _ _ _ h

theorem getN_appendChild_ne (st : List Node) (i j : Nat) (c : Nat × ℝ) (h : j ≠ i) :
    getN (appendChild st i c) j = getN st j := getN_setN_ne _ _ _ _ h

/-- `children.append` never changes any node's value. -/
theorem val_appendChild (st : List Node) (i : Nat) (c : Nat × ℝ) (j : Nat) :
    (getN (appendChild st i c) j).val = (getN st j).val := by
  by_cases hij : j = i
  · subst hij
    by_cases hj : j < st.length
    · rw [getN_appendChild_self _ _ _ hj]
    · rw [appendChild, setN_oob _ _ _ (le_of_not_lt hj)]
  · rw [getN_appendChild_ne _ _ _ _ hij]

/-- `children.append` never changes any node's cached derivative. -/
theorem der_appendChild (st : List Node) (i : Nat) (c : Nat × ℝ) (j : Nat) :
    (getN (appendChild st i c) j).der = (getN st j).der := by
  by_cases hij : j = i
  · subst hij
    by_cases hj : j < st.length
    · rw [getN_appendChild_self _ _ _ hj]
    · rw [appendChild, setN_oob _ _ _ (le_of_not_lt hj)]
  · rw [getN_appendChild_ne _ _ _ _ hij]

/-- Writing a derivative never changes any node's value. -/
theorem val_setDer (st : List Node) (i : Nat) (d : ℝ) (j : Nat) :
    (getN (setDer st i d) j).val = (getN st j).val := by
  by_cases hij : j = i
  · subst hij
    by_cases hj : j < st.length
    · rw [setDer, getN_setN_self _ _ _ hj]
    · rw [setDer, setN_oob _ _ _ (le_of_not_lt hj)]
  · rw [setDer, getN_setN_ne _ _ _ _ hij]

/-- Writing a derivative never changes any node's children list. -/
theorem children_setDer (st : List Node) (i : Nat) (d : ℝ) (j : Nat) :
    (getN (setDer st i d) j).children = (getN st j).children := by
  by_cases hij : j = i
  · subst hij
    by_cases hj : j < st.length
    · rw [setDer, getN_setN_self _ _ _ hj]
    · rw [setDer, setN_oob _ _ _ (le_of_not_lt hj)]
  · rw [setDer, getN_setN_ne _ _ _ _ hij]

/-! ### Structural lemmas about the backward pass -/

theorem shapeEq_refl (st : List Node) : ShapeEq st st :=
  ⟨rfl, fun _ => ⟨rfl, rfl⟩⟩

theorem shapeEq_trans {s1 s2 s3 : List Node} (h1 : ShapeEq s1 s2)
    (h2 : ShapeEq s2 s3) : ShapeEq s1 s3 :=
  ⟨h2.1.trans h1.1, fun j =>
    ⟨(h2.2 j).1.trans (h1.2 j).1, (h2.2 j).2.trans (h1.2 j).2⟩⟩

theorem shapeEq_setDer (st : List Node) (i : Nat) (d : ℝ) :
    ShapeEq st (setDer st i d) :=
  ⟨length_setDer .., fun j => ⟨val_setDer .., children_setDer ..⟩⟩

/-- `sumChildren` only mutates states through `gg`, so any state property
preserved by `gg` is preserved by it; specialized here to `ShapeEq`. -/
theorem sumChildren_shape
    (gg : List Node → Nat → List Node × Option ℝ)
    (hgg : ∀ st i, ShapeEq st (gg st i).1) :
    ∀ (l : List (Nat × ℝ)) (st : List Node),
      ShapeEq st (sumChildren gg st l).1 := by
  intro l
  induction l with
  | nil => intro st; exact shapeEq_refl st
  | cons p rest ih =>
      intro st
      obtain ⟨c, w⟩ := p
      rcases h1 : gg st c with ⟨st1, r1⟩
      have hs1 : ShapeEq st st1 := by simpa [h1] using hgg st c
      cases r1 with
      | none => simpa [sumChildren, h1] using hs1
      | some g =>
          rcases h2 : sumChildren gg st1 rest with ⟨st2, r2⟩
          have hs2 : ShapeEq st1 st2 := by simpa [h2] using ih st1
          cases r2 with
          | none => simpa [sumChildren, h1, h2] using shapeEq_trans hs1 hs2
          | some s2 => simpa [sumChildren, h1, h2] using shapeEq_trans hs1 hs2

/-- `get_gradient` only writes derivative caches: lengths, values and
children lists are untouched. -/
theorem getGradientF_shape (fuel : Nat) :
    ∀ (st : List Node) (i : Nat), ShapeEq st (getGradientF fuel st i).1 := by
  induction fuel with
  | zero => intro st i; exact shapeEq_refl st
  | succ f ih =>
      intro st i
      cases hd : (getN st i).der with
      | some d => simp [getGradientF, hd]; exact shapeEq_refl st
      | none =>
          rcases hs : sumChildren (getGradientF f) st (getN st i).children
            with ⟨st1, r⟩
          have h1 : ShapeEq st st1 := by
            simpa [hs] using sumChildren_shape (getGradientF f) ih
              (getN st i).children st
          cases r with
          | none => simpa [getGradientF, hd, hs] using h1
          | some s =>
              simpa [getGradientF, hd, hs] using
                shapeEq_trans h1 (shapeEq_setDer st1 i s)

/-- A derivative cache, once written, is never overwritten by
`sumChildren` (specialization of: `gg` preserves written caches). -/
theorem sumChildren_derMono
    (gg : List Node → Nat → List Node × Option ℝ)
    (hgg : ∀ st i j d, (getN st j).der = some d → (getN (gg st i).1 j).der = some d) :
    ∀ (l : List (Nat × ℝ)) (st : List Node) (j : Nat) (d : ℝ),
      (getN st j).der = some d → (getN (sumChildren gg st l).1 j).der = some d := by
  intro l
  induction l with
  | nil => intro st j d h; simpa [sumChildren] using h
  | cons p rest ih =>
      intro st j d h
      obtain ⟨c, w⟩ := p
      rcases h1 : gg st c with ⟨st1, r1⟩
      have hm1 : (getN st1 j).der = some d := by
        have := hgg st c j d h; rwa [h1] at this
      cases r1 with
      | none => simpa [sumChildren, h1] using hm1
      | some g =>
          rcases h2 : sumChildren gg st1 rest with ⟨st2, r2⟩
          have hm2 : (getN st2 j).der = some d := by
            have := ih st1 j d hm1; rwa [h2] at this
          cases r2 with
          | none => simpa [sumChildren, h1, h2] using hm2
          | some s2 => simpa [sumChildren, h1, h2] using hm2

/-- A derivative cache, once written, is never overwritten by
`get_gradient`. -/
theorem getGradientF_derMono (fuel : Nat) :
    ∀ (st : List Node) (i j : Nat) (d : ℝ),
      (getN st j).der = some d → (getN (getGradientF fuel st i).1 j).der = some d := by
  induction fuel with
  | zero => intro st i j d h; simpa [getGradientF] using h
  | succ f ih =>
      intro st i j d h
      cases hd : (getN st i).der with
      | some e => simpa [getGradientF, hd] using h
      | none =>
          rcases hs : sumChildren (getGradientF f) st (getN st i).children
            with ⟨st1, r⟩
          have hm1 : (getN st1 j).der = some d := by
            have := sumChildren_derMono (getGradientF f) ih
              (getN st i).children st j d h
            rwa [hs] at this
          cases r with
          | none => simpa [getGradientF, hd, hs] using hm1
          | some s =>
              by_cases hji : j = i
              · subst hji
                rw [hd] at h; exact absurd h (by simp)
              · simpa [getGradientF, hd, hs, setDer, getN_setN_ne _ _ _ _ hji]
                  using hm1

/-- A successful `get_gradient` call leaves the returned value in the
node's cache. -/
theorem getGradientF_success_der (fuel : Nat) (st : List Node) (i : Nat)
    (st' : List Node) (g : ℝ) (hi : i < st.length)
    (h : getGradientF fuel st i = (st', some g)) :
    (getN st' i).der = some g := by
  cases fuel with
  | zero => exact absurd h (by simp [getGradientF])
  | succ f =>
      cases hd : (getN st i).der with
      | some d =>
          rw [getGradientF, hd] at h
          injection h with hst hsome
          injection hsome with hg
          subst hst hg
          exact hd
      | none =>
          rcases hs : sumChildren (getGradientF f) st (getN st i).children
            with ⟨st1, r⟩
          rw [getGradientF, hd, hs] at h
          cases r with
          | none => exact absurd h (by simp)
          | some s =>
              injection h with hst hsome
              injection hsome with hg
              subst hg
              have hshape : ShapeEq st st1 := by
                have := sumChildren_shape (getGradientF f) (getGradientF_shape f)
                  (getN st i).children st
                rwa [hs] at this
              rw [← hst, setDer, getN_setN_self _ _ _ (hshape.1 ▸ hi)]

/-- The value produced by the `sum(...)` comprehension: when it succeeds it
is exactly the sum over the edge list of the successor's (now cached)
gradient times the edge weight, read in the final state. -/
theorem sumChildren_value (fuel : Nat) :
    ∀ (l : List (Nat × ℝ)) (st st1 : List Node) (s : ℝ),
      (∀ p ∈ l, p.1 < st.length) →
      sumChildren (getGradientF fuel) st l = (st1, some s) →
      s = sumOver st1 l := by
  intro l
  induction l with
  | nil =>
      intro st st1 s _ h
      injection h with h1 h2
      injection h2 with h2
      simp [sumOver, ← h2]
  | cons p rest ih =>
      intro st st1 s hmem h
      obtain ⟨c, w⟩ := p
      rcases h1 : getGradientF fuel st c with ⟨stc, r1⟩
      cases r1 with
      | none => simp [sumChildren, h1] at h
      | some g =>
          rcases h2 : sumChildren (getGradientF fuel) stc rest with ⟨st2, r2⟩
          cases r2 with
          | none => simp [sumChildren, h1, h2] at h
          | some s2 =>
              simp only [sumChildren, h1, h2] at h
              have hst : st2 = st1 := congrArg Prod.fst h
              have hsum : g * w + s2 = s := Option.some.inj (congrArg Prod.snd h)
              have hcshape : ShapeEq st stc := by
                have := getGradientF_shape fuel st c
                rwa [h1] at this
              have hcache : (getN stc c).der = some g :=
                getGradientF_success_der fuel st c stc g
                  (hmem (c, w) (by simp)) h1
              have hcache1 : (getN st2 c).der = some g := by
                have := sumChildren_derMono (getGradientF fuel)
                  (getGradientF_derMono fuel) rest stc c g hcache
                rwa [h2] at this
              have hrest : s2 = sumOver st2 rest := by
                refine ih stc st2 s2 ?_ h2
                intro p hp
                exact hcshape.1 ▸ hmem p (by simp [hp])
              rw [← hsum, ← hst, hrest]
              simp [sumOver, hcache1]

/-- Under the forward-edge invariant, `st.length - i` fuel suffices: the
backward pass terminates and produces a value. -/
theorem getGradientF_isSome (fuel : Nat) :
    ∀ (st : List Node) (i : Nat), EdgesForward st → i < st.length →
      st.length - i ≤ fuel → ((getGradientF fuel st i).2).isSome := by
  induction fuel with
  | zero =>
      intro st i _ hi hf
      omega
  | succ f ih =>
      intro st i hE hi _
      cases hd : (getN st i).der with
      | some d => simp [getGradientF, hd]
      | none =>
          have hsome : ∀ (l : List (Nat × ℝ)) (st' : List Node),
              EdgesForward st' → st'.length = st.length →
              (∀ p ∈ l, i < p.1 ∧ p.1 < st.length) →
              ((sumChildren (getGradientF f) st' l).2).isSome := by
            intro l
            induction l with
            | nil => intro st' _ _ _; simp [sumChildren]
            | cons p rest ihl =>
                intro st' hE' hlen hmem
                obtain ⟨c, w⟩ := p
                obtain ⟨hic, hcl⟩ := hmem (c, w) (by simp)
                rcases h1 : getGradientF f st' c with ⟨stc, r1⟩
                have hr1 : r1.isSome := by
                  have := ih st' c hE' (hlen ▸ hcl) (by omega)
                  rwa [h1] at this
                obtain ⟨g, hg⟩ := Option.isSome_iff_exists.mp hr1
                subst hg
                have hcshape : ShapeEq st' stc := by
                  have := getGradientF_shape f st' c
                  rwa [h1] at this
                have hEc : EdgesForward stc := by
                  intro m p hp
                  rw [(hcshape.2 m).2] at hp
                  exact hcshape.1 ▸ hE' m p hp
                rcases h2 : sumChildren (getGradientF f) stc rest with ⟨st2, r2⟩
                have hr2 : r2.isSome := by
                  have := ihl stc hEc (hcshape.1.trans hlen)
                    (fun p hp => hmem p (by simp [hp]))
                  rwa [h2] at this
                obtain ⟨s2, hs2⟩ := Option.isSome_iff_exists.mp hr2
                subst hs2
                simp [sumChildren, h1, h2]
          rcases hs : sumChildren (getGradientF f) st (getN st i).children
            with ⟨st1, r⟩
          have : r.isSome := by
            have := hsome (getN st i).children st hE rfl (hE i)
            rwa [hs] at this
          obtain ⟨s, hsv⟩ := Option.isSome_iff_exists.mp this
          subst hsv
          simp [getGradientF, hd, hs]

/-! ### The construction invariant -/

theorem getN_oob (st : List Node) (i : Nat) (h : st.length ≤ i) :
    getN st i = default := by
  induction st generalizing i with
  | nil => rfl
  | cons n rest ih =>
      cases i with
      | zero => exact absurd h (by simp)
      | succ i => simpa [getN] using ih i (by simpa using h)

theorem children_leaves (vals : List ℝ) (m : Nat) :
    (getN (vals.map fun x => { val := x, children := [], der := none }) m).children = [] := by
  induction vals generalizing m with
  | nil => cases m <;> rfl
  | cons v rest ih =>
      cases m with
      | zero => rfl
      | succ m => simpa [getN] using ih m

theorem der_leaves (vals : List ℝ) (m : Nat) :
    (getN (vals.map fun x => { val := x, children := [], der := none }) m).der = none := by
  induction vals generalizing m with
  | nil => cases m <;> rfl
  | cons v rest ih =>
      cases m with
      | zero => rfl
      | succ m => simpa [getN] using ih m

theorem edgesForward_append_leaf (st : List Node) (v : ℝ)
    (hE : EdgesForward st) :
    EdgesForward (st ++ [{ val := v, children := [], der := none }]) := by
  intro m p hp
  rcases lt_trichotomy m st.length with hm | hm | hm
  · rw [getN_append_left _ _ _ hm] at hp
    have := hE m p hp
    simp only [List.length_append, List.length_cons, List.length_nil]
    omega
  · rw [hm, getN_append_len] at hp
    exact absurd hp (by simp)
  · rw [getN_oob _ _ (by simp; omega)] at hp
    exact absurd hp (by simp [default, Inhabited.default])

theorem edgesForward_appendChild (st : List Node) (i k : Nat) (w : ℝ)
    (hE : EdgesForward st) (hik : i < k) (hk : k < st.length) :
    EdgesForward (appendChild st i (k, w)) := by
  intro m p hp
  rw [length_appendChild]
  by_cases hmi : m = i
  · subst hmi
    rw [getN_appendChild_self _ _ _ (lt_trans hik hk)] at hp
    simp only [List.mem_append, List.mem_singleton] at hp
    rcases hp with hp | hp
    · exact hE m p hp
    · subst hp; exact ⟨hik, hk⟩
  · rw [getN_appendChild_ne _ _ _ _ hmi] at hp
    exact hE m p hp

theorem edgesForward_build1 (st : List Node) (i : Nat) (v w : ℝ)
    (hE : EdgesForward st) (hi : i < st.length) :
    EdgesForward
      (appendChild (st ++ [{ val := v, children := [], der := none }]) i
        (st.length, w)) :=
  edgesForward_appendChild _ _ _ _ (edgesForward_append_leaf _ _ hE) hi
    (by simp)

theorem edgesForward_build2 (st : List Node) (i j : Nat) (v w1 w2 : ℝ)
    (hE : EdgesForward st) (hi : i < st.length) (hj : j < st.length) :
    EdgesForward
      (appendChild
        (appendChild (st ++ [{ val := v, children := [], der := none }]) i
          (st.length, w1)) j (st.length, w2)) :=
  edgesForward_appendChild _ _ _ _ (edgesForward_build1 _ _ _ _ hE hi) hj
    (by simp [length_appendChild])

/-- Every state the engine can build satisfies the forward-edge invariant. -/
theorem built_edgesForward (st : List Node) (h : Built st) : EdgesForward st := by
  induction h with
  | leaves vals =>
      intro m p hp
      rw [children_leaves] at hp
      exact absurd hp (by simp)
  | init st x h ih => exact edgesForward_append_leaf _ _ ih
  | add st st' i k o h hi ho he ih =>
      cases o with
      | num c =>
          simp only [nodeAdd] at he
          injection he with hpair
          cases hpair
          exact edgesForward_build1 _ _ _ _ ih hi
      | node j =>
          simp only [nodeAdd] at he
          injection he with hpair
          cases hpair
          exact edgesForward_build2 _ _ _ _ _ _ ih hi ho
      | other => simp [nodeAdd] at he
  | mul st st' i k o h hi ho he ih =>
      cases o with
      | num c =>
          simp only [nodeMul] at he
          injection he with hpair
          cases hpair
          exact edgesForward_build1 _ _ _ _ ih hi
      | node j =>
          simp only [nodeMul] at he
          injection he with hpair
          cases hpair
          exact edgesForward_build2 _ _ _ _ _ _ ih hi ho
      | other => simp [nodeMul] at he
  | truediv st st' i k o h hi ho he ih =>
      cases o with
      | num c =>
          simp only [nodeTruediv] at he
          injection he with hpair
          cases hpair
          exact edgesForward_build1 _ _ _ _ ih hi
      | node j =>
          simp only [nodeTruediv] at he
          injection he with hpair
          cases hpair
          exact edgesForward_build2 _ _ _ _ _ _ ih hi ho
      | other => simp [nodeTruediv] at he
  | rtruediv st st' i k o h hi he ih =>
      cases o with
      | num c =>
          simp only [nodeRtruediv] at he
          injection he with hpair
          cases hpair
          exact edgesForward_build1 _ _ _ _ ih hi
      | node j => simp [nodeRtruediv] at he
      | other => simp [nodeRtruediv] at he
  | sub st st' i k o h hi ho he ih =>
      cases o with
      | num c =>
          simp only [nodeSub] at he
          injection he with hpair
          cases hpair
          exact edgesForward_build1 _ _ _ _ ih hi
      | node j =>
          simp only [nodeSub] at he
          injection he with hpair
          cases hpair
          exact edgesForward_build2 _ _ _ _ _ _ ih hi ho
      | other => simp [nodeSub] at he
  | rsub st st' i k o h hi he ih =>
      cases o with
      | num c =>
          simp only [nodeRsub] at he
          injection he with hpair
          cases hpair
          exact edgesForward_build1 _ _ _ _ ih hi
      | node j => simp [nodeRsub] at he
      | other => simp [nodeRsub] at he
  | pow st st' i k o h hi ho he ih =>
      cases o with
      | num c =>
          simp only [nodePow] at he
          injection he with hpair
          cases hpair
          exact edgesForward_build1 _ _ _ _ ih hi
      | node j =>
          simp only [nodePow] at he
          injection he with hpair
          cases hpair
          exact edgesForward_build2 _ _ _ _ _ _ ih hi ho
      | other => simp [nodePow] at he
  | rpow st st' i k o h hi he ih =>
      cases o with
      | num c =>
          simp only [nodeRpow] at he
          injection he with hpair
          cases hpair
          exact edgesForward_build1 _ _ _ _ ih hi
      | node j => simp [nodeRpow] at he
      | other => simp [nodeRpow] at he
  | neg st st' i k h hi he ih =>
      simp only [nodeNeg, nodeMul] at he
      injection he with hpair
      cases hpair
      exact edgesForward_build1 _ _ _ _ ih hi

/-- Along the forward-edge invariant, any chain of edges strictly increases
the creation index. -/
theorem transGen_lt (st : List Node) (i j : Nat) (hE : EdgesForward st)
    (h : Relation.TransGen (NodeEdge st) i j) : i < j := by
  induction h with
  | single h => obtain ⟨w, hw⟩ := h; exact (hE _ _ hw).1
  | tail h1 h2 ih => obtain ⟨w, hw⟩ := h2; exact lt_trans ih (hE _ _ hw).1

/-! ### Remaining helper lemmas -/

theorem val_build1 (st : List Node) (n : Node) (i : Nat) (c : Nat × ℝ)
    (j : Nat) (hj : j < st.length) :
    (getN (appendChild (st ++ [n]) i c) j).val = (getN st j).val := by
  rw [val_appendChild, getN_append_left _ _ _ hj]

theorem val_build2 (st : List Node) (n : Node) (i : Nat) (c1 : Nat × ℝ)
    (m : Nat) (c2 : Nat × ℝ) (j : Nat) (hj : j < st.length) :
    (getN (appendChild (appendChild (st ++ [n]) i c1) m c2) j).val =
      (getN st j).val := by
  rw [val_appendChild, val_appendChild, getN_append_left _ _ _ hj]

theorem sumOver_setDer_ne (st : List Node) (i : Nat) (d : ℝ)
    (l : List (Nat × ℝ)) (h : ∀ p ∈ l, p.1 ≠ i) :
    sumOver (setDer st i d) l = sumOver st l := by
  unfold sumOver
  congr 1
  refine List.map_congr_left ?_
  intro p hp
  rw [setDer, getN_setN_ne _ _ _ _ (h p hp)]

theorem autoDiffRGo_ne_dim (vars : List Nat) :
    ∀ st : List Node, autoDiffRGo st vars ≠ .error .dimMismatch := by
  induction vars with
  | nil => intro st h; simp [autoDiffRGo] at h
  | cons v rest ih =>
      intro st h
      rcases hg : getGradientF (st.length + 1) st v with ⟨st1, r⟩
      simp only [autoDiffRGo, hg] at h
      cases r with
      | none => simp at h
      | some g =>
          replace h : Except.map (fun gs => g :: gs) (autoDiffRGo st1 rest) =
              Except.error PyErr.dimMismatch := h
          rcases hrest : autoDiffRGo st1 rest with e | gs
          · rw [hrest] at h
            simp only [Except.map] at h
            injection h with he
            exact ih st1 (by rw [hrest, he])
          · rw [hrest] at h; simp [Except.map] at h

/-! ## Claims -/

/-- C1: for `a ** b` with a `Node` exponent, the source is claimed to append
weight `a^b·ln(a)` to the exponent node.  At base value 2 and exponent
value 3 the code instead appends `2^3·ln(3) = 8·ln 3`, and `8·ln 3 ≠ 8·ln 2`:
the result-node value (`a^b = 8`) and the base edge weight
(`b·a^(b−1) = 12`) match the claim, the exponent edge weight does not
(`math.log(other.val)` in the source takes the log of the exponent, not of
the base). -/
theorem c1_pow_exponent_weight_bug :
    nodePow [{ val := 2, children := [], der := none },
             { val := 3, children := [], der := none }] 0 (.node 1) =
      .ok ([{ val := 2, children := [(2, 12)], der := none },
            { val := 3, children := [(2, 8 * Real.log 3)], der := none },
            { val := 8, children := [], der := none }], 2) ∧
    (8 : ℝ) * Real.log 3 ≠ 8 * Real.log 2 := by
  constructor
  · have h23 : Real.rpow 2 3 = 8 := by
      rw [show Real.rpow 2 3 = (2 : ℝ) ^ (3 : ℝ) from rfl]
      rw [show (3 : ℝ) = ((3 : ℕ) : ℝ) by norm_num, Real.rpow_natCast]
      norm_num
    have h22 : Real.rpow 2 ((3 : ℝ) - 1) = 4 := by
      rw [show Real.rpow 2 ((3 : ℝ) - 1) = (2 : ℝ) ^ ((3 : ℝ) - 1) from rfl]
      rw [show (3 : ℝ) - 1 = ((2 : ℕ) : ℝ) by norm_num, Real.rpow_natCast]
      norm_num
    simp [nodePow, appendChild, getN, setN, h23, h22]
    norm_num
  · intro h
    have h1 : Real.log 2 < Real.log 3 :=
      Real.log_lt_log (by norm_num) (by norm_num)
    have h2 : Real.log 3 = Real.log 2 := by linarith
    linarith

/-- C2: the reverse-mode driver on `f(x) = (x + x) * (x + x)` at any point
`x0` returns the gradient `8·x0`: memoized accumulation is correct on a
diamond graph where the input node is consumed twice by each addition and
the two sums are multiplied. -/
theorem c2_diamond_gradient (x0 : ℝ) :
    AutoDiffR1D (.fn fDiamond) [x0] = .ok [8 * x0] := by
  simp only [AutoDiffR1D, fDiamond, List.map, List.range, List.range.loop,
    List.length, nodeAdd, nodeMul, getN, setN, appendChild, setDer,
    autoDiffRMethod, autoDiffRGo, getGradientF, sumChildren, Except.map]
  norm_num
  ring_nf

/-- C4 counterexample: `Node.__eq__` applied to an operand that is neither a
`Node` nor a real number returns `False` (and `__ne__` returns `True`)
instead of raising `TypeError`, falsifying the claim that every comparison
operation raises a type error on such operands. -/
theorem c4_eq_counterexample :
    nodeEq [{ val := 1, children := [], der := none }] 0 PyObj.other =
      .ok False ∧
    nodeNe [{ val := 1, children := [], der := none }] 0 PyObj.other =
      .ok True ∧
    nodeEq [{ val := 1, children := [], der := none }] 0 PyObj.other ≠
      .error PyErr.typeError := by
  refine ⟨rfl, ?_, by simp [nodeEq]⟩
  simp [nodeNe, nodeEq, Except.map]

/-- C4 (amended): every arithmetic operation and the order comparisons
`<, >, ≤, ≥` raise `TypeError` on an operand that is neither a `Node` nor a
real number, and `AutoDiffR1D` raises `TypeError` when its first argument
is not introspectable; but `==` returns `False` and `!=` returns `True` on
such operands instead of raising. -/
theorem c4_type_errors (st : List Node) (i : Nat) (val : List ℝ) :
    nodeAdd st i .other = .error .typeError ∧
    nodeRadd st i .other = .error .typeError ∧
    nodeMul st i .other = .error .typeError ∧
    nodeRmul st i .other = .error .typeError ∧
    nodeTruediv st i .other = .error .typeError ∧
    nodeRtruediv st i .other = .error .typeError ∧
    nodeSub st i .other = .error .typeError ∧
    nodeRsub st i .other = .error .typeError ∧
    nodePow st i .other = .error .typeError ∧
    nodeRpow st i .other = .error .typeError ∧
    nodeLt st i .other = .error .typeError ∧
    nodeGt st i .other = .error .typeError ∧
    nodeLe st i .other = .error .typeError ∧
    nodeGe st i .other = .error .typeError ∧
    nodeEq st i .other = .ok False ∧
    nodeNe st i .other = .ok True ∧
    AutoDiffR1D .notCallable val = .error .typeError := by
  refine ⟨rfl, rfl, rfl, rfl, rfl, rfl, rfl, rfl, rfl, rfl, rfl, rfl, rfl,
    rfl, rfl, ?_, rfl⟩
  simp [nodeNe, nodeEq, Except.map]

/-- C10: `Node.__init__` succeeds on every real-number (`int`/`float`)
value, producing a node with that value, an empty children list and an
unset gradient, and raises `TypeError` on any other argument (another
`Node` included). -/
theorem c10_constructor (x : ℝ) (j : Nat) :
    Node.init (.num x) = .ok { val := x, children := [], der := none } ∧
    Node.init (.node j) = .error .typeError ∧
    Node.init .other = .error .typeError :=
  ⟨rfl, rfl, rfl⟩

/-- C3: `get_gradient` (i) returns a set cache immediately without touching
the state; (ii) on an unset node with no edges it stores and returns `0`;
(iii) on an unset node it stores and returns the sum over its edge pairs of
the successor's gradient times the weight (each successor's gradient being
cached in the final state); (iv) after one successful read, any later read
returns the identical cached value with the state unchanged. -/
theorem c3_get_gradient_memo (st : List Node) (i : Nat) (fuel : Nat) (d : ℝ)
    (st' : List Node) (g : ℝ) :
    ((getN st i).der = some d → getGradientF (fuel + 1) st i = (st, some d)) ∧
    ((getN st i).der = none → (getN st i).children = [] →
      getGradientF (fuel + 1) st i = (setDer st i 0, some 0)) ∧
    ((getN st i).der = none → i < st.length →
      (∀ p ∈ (getN st i).children, p.1 < st.length ∧ p.1 ≠ i) →
      getGradientF (fuel + 1) st i = (st', some g) →
      (getN st' i).der = some g ∧ g = sumOver st' (getN st i).children) ∧
    (i < st.length → getGradientF fuel st i = (st', some g) →
      getGradientF (fuel + 1) st' i = (st', some g)) := by
  refine ⟨?_, ?_, ?_, ?_⟩
  · intro hd
    simp [getGradientF, hd]
  · intro hd hc
    simp [getGradientF, hd, hc, sumChildren]
  · intro hd hi hmem he
    rw [getGradientF, hd] at he
    rcases hs : sumChildren (getGradientF fuel) st (getN st i).children
      with ⟨st1, r⟩
    rw [hs] at he
    cases r with
    | none => exact absurd he (by simp)
    | some sv =>
        injection he with hst hsome
        injection hsome with hg
        subst hg
        have hshape : ShapeEq st st1 := by
          have := sumChildren_shape (getGradientF fuel) (getGradientF_shape fuel)
            (getN st i).children st
          rwa [hs] at this
        have hval : sv = sumOver st1 (getN st i).children :=
          sumChildren_value fuel (getN st i).children st st1 sv
            (fun p hp => (hmem p hp).1) hs
        constructor
        · rw [← hst, setDer, getN_setN_self _ _ _ (hshape.1 ▸ hi)]
        · rw [← hst, sumOver_setDer_ne _ _ _ _ (fun p hp => (hmem p hp).2), hval]
  · intro hi he
    have hder : (getN st' i).der = some g :=
      getGradientF_success_der fuel st i st' g hi he
    simp [getGradientF, hder]

/-- C3 witness: the four behaviours at concrete nodes — a cached node
returns its cache unchanged; an edgeless unset node yields `0`; an unset
node with one edge of weight `5` to a successor cached at `3` yields
`15 = 3·5` and caches it; a second read after a successful one is
identical. -/
theorem c3_get_gradient_memo_witness :
    (getGradientF 1 [{ val := 5, children := [], der := some 3 }] 0 =
      ([{ val := 5, children := [], der := some 3 }], some 3)) ∧
    (getGradientF 1 [{ val := 5, children := [], der := none }] 0 =
      ([{ val := 5, children := [], der := some 0 }], some 0)) ∧
    ((getN [{ val := 1, children := [(1, 5)], der := some 15 },
            { val := 2, children := [], der := some 3 }] 0).der = some 15 ∧
      (15 : ℝ) = sumOver [{ val := 1, children := [(1, 5)], der := some 15 },
            { val := 2, children := [], der := some 3 }] [(1, 5)]) ∧
    (getGradientF 2 [{ val := 5, children := [], der := some 3 }] 0 =
      ([{ val := 5, children := [], der := some 3 }], some 3)) := by
  refine ⟨?_, ?_, ?_, ?_⟩
  · exact (c3_get_gradient_memo _ 0 0 3 [] 0).1 rfl
  · have h := (c3_get_gradient_memo
      [{ val := 5, children := [], der := none }] 0 0 0 [] 0).2.1 rfl rfl
    simpa [setDer, setN, getN] using h
  · exact (c3_get_gradient_memo
      [{ val := 1, children := [(1, 5)], der := none },
       { val := 2, children := [], der := some 3 }] 0 1 0
      [{ val := 1, children := [(1, 5)], der := some 15 },
       { val := 2, children := [], der := some 3 }] 15).2.2.1 rfl
      (by norm_num)
      (by intro p hp; simp only [getN, List.mem_singleton] at hp; simp [hp, getN])
      (by simp [getGradientF, getN, sumChildren, setDer, setN]; norm_num)
  · exact (c3_get_gradient_memo [{ val := 5, children := [], der := some 3 }]
      0 1 3 [{ val := 5, children := [], der := some 3 }] 3).2.2.2
      (by norm_num) rfl

/-- C5: for an introspectable function, `AutoDiffR1D` raises the
dimension-mismatch exception exactly when the point's length differs from
the function's declared parameter count (assuming the function body itself
never raises that exact exception); on a mismatch no gradient vector is
produced (the error return excludes an `ok` result by construction). -/
theorem c5_dimension_mismatch_iff (f : PyFunc) (val : List ℝ) :
    (f.arity ≠ val.length →
      AutoDiffR1D (.fn f) val = .error .dimMismatch) ∧
    (f.arity = val.length →
      (∀ st xs, f.body st xs ≠ .error .dimMismatch) →
      AutoDiffR1D (.fn f) val ≠ .error .dimMismatch) := by
  constructor
  · intro h
    simp [AutoDiffR1D, h]
  · intro h hbody habs
    rw [AutoDiffR1D] at habs
    simp only [h, ne_eq, not_true_eq_false, if_false] at habs
    rcases hb : f.body (val.map fun x => { val := x, children := [], der := none })
        (List.range val.length) with e | p
    · rw [hb] at habs
      injection habs with he
      exact hbody _ _ (by rw [hb, he])
    · obtain ⟨st1, out⟩ := p
      rw [hb] at habs
      exact autoDiffRGo_ne_dim (List.range val.length) (setDer st1 out 1) habs

/-- C5 witness: the identity function (declared arity 1) raises the
dimension mismatch on a 0-length point and not on a 1-length point. -/
theorem c5_dimension_mismatch_iff_witness :
    AutoDiffR1D (.fn fId1) [] = .error .dimMismatch ∧
    AutoDiffR1D (.fn fId1) [5] ≠ .error .dimMismatch := by
  constructor
  · exact (c5_dimension_mismatch_iff fId1 []).1 (by simp [fId1])
  · refine (c5_dimension_mismatch_iff fId1 [5]).2 (by simp [fId1]) ?_
    intro st xs
    rcases xs with _ | ⟨a, _ | ⟨b, l⟩⟩ <;> simp [fId1]

/-- The zip loop of `AutoDiffR` is exactly a monadic map of `AutoDiffR1D`
over the zipped pairs. -/
theorem autoDiffRList_eq_mapM (l : List (PyCallable × List ℝ)) :
    autoDiffRList l = l.mapM fun p => AutoDiffR1D p.1 p.2 := by
  induction l with
  | nil => rfl
  | cons p rest ih =>
      rw [autoDiffRList, List.mapM_cons, ih]
      rcases AutoDiffR1D p.1 p.2 with e | g
      · rfl
      · rcases rest.mapM (fun p => AutoDiffR1D p.1 p.2) with e | gs <;> rfl

/-- C6: `AutoDiffR` with a single (non-list) function delegates to
`AutoDiffR1D`; with a list of functions it raises the length-mismatch
exception when the two lists differ in length, and otherwise evaluates the
zipped pairs in order — in particular, when every per-pair evaluation
succeeds, it returns exactly the ordered list of per-function gradient
vectors. -/
theorem c6_batch_dispatch (f : PyCallable) (v : List ℝ)
    (fs : List PyCallable) (vals : List (List ℝ))
    (G : PyCallable × List ℝ → List ℝ) :
    (AutoDiffR (.one f v) = (AutoDiffR1D f v).map PyOutput.one) ∧
    (fs.length ≠ vals.length →
      AutoDiffR (.many fs vals) = .error .lenMismatch) ∧
    (fs.length = vals.length →
      AutoDiffR (.many fs vals) =
        ((fs.zip vals).mapM fun p => AutoDiffR1D p.1 p.2).map PyOutput.many) ∧
    (fs.length = vals.length →
      (∀ p ∈ fs.zip vals, AutoDiffR1D p.1 p.2 = .ok (G p)) →
      AutoDiffR (.many fs vals) = .ok (.many ((fs.zip vals).map G))) := by
  refine ⟨rfl, ?_, ?_, ?_⟩
  · intro h
    simp [AutoDiffR, h]
  · intro h
    simp [AutoDiffR, h, autoDiffRList_eq_mapM]
  · intro h hall
    have hok : ∀ l : List (PyCallable × List ℝ),
        (∀ p ∈ l, AutoDiffR1D p.1 p.2 = .ok (G p)) →
        autoDiffRList l = .ok (l.map G) := by
      intro l
      induction l with
      | nil => intro _; rfl
      | cons p rest ih =>
          intro hl
          rw [autoDiffRList, hl p (by simp), ih (fun q hq => hl q (by simp [hq]))]
          rfl
    simp [AutoDiffR, h, hok (fs.zip vals) hall, Except.map]

/-- C6 witness: a 1-vs-2 length mismatch raises, and a matched singleton
batch returns the single gradient vector `[1]` of the identity function. -/
theorem c6_batch_dispatch_witness :
    AutoDiffR (.many [.fn fId1] [[2], [3]]) = .error .lenMismatch ∧
    AutoDiffR (.many [.fn fId1] [[2]]) = .ok (.many [[1]]) := by
  constructor
  · exact (c6_batch_dispatch (.fn fId1) [] [.fn fId1] [[2], [3]]
      (fun _ => [1])).2.1 (by simp)
  · have h := (c6_batch_dispatch (.fn fId1) [] [.fn fId1] [[2]]
      (fun _ => [1])).2.2.2 (by simp) ?_
    · simpa using h
    · intro p hp
      simp only [List.zip_cons_cons, List.zip_nil_right, List.mem_singleton] at hp
      subst hp
      simp only [AutoDiffR1D, fId1, List.map, List.range, List.range.loop,
        List.length, autoDiffRMethod, autoDiffRGo, getGradientF, getN, setN,
        setDer, sumChildren, Except.map]
      norm_num

/-- C7: the driver on `f(x, y) = x / y` returns the quotient-rule gradient
`[1/y0, −x0/y0²]`, and the reflected divide `c / node` appends to the node
an edge whose weight is `−c/a²` at the node's current value `a` (the new
node carrying value `c/a`). -/
theorem c7_quotient_rule (x0 y0 : ℝ) (st : List Node) (i : Nat) (c : ℝ) :
    (y0 ≠ 0 →
      AutoDiffR1D (.fn fDiv) [x0, y0] = .ok [1 / y0, -x0 / y0 ^ (2 : ℕ)]) ∧
    (i < st.length →
      ∀ st' k, nodeRtruediv st i (.num c) = .ok (st', k) →
        k = st.length ∧
        (getN st' i).children =
          (getN st i).children ++ [(st.length, -c / (getN st i).val ^ (2 : ℕ))] ∧
        (getN st' k).val = c / (getN st i).val) := by
  constructor
  · intro _
    simp only [AutoDiffR1D, fDiv, List.map, List.range, List.range.loop,
      List.length, nodeTruediv, getN, setN, appendChild, setDer,
      autoDiffRMethod, autoDiffRGo, getGradientF, sumChildren, Except.map]
    norm_num
  · intro hi st' k he
    simp only [nodeRtruediv] at he
    injection he with hpair
    have hst : st' = appendChild
        (st ++ [{ val := c / (getN st i).val, children := [], der := none }]) i
        (st.length, -c / (getN st i).val ^ (2 : ℕ)) :=
      (congrArg Prod.fst hpair).symm
    have hk : k = st.length := (congrArg Prod.snd hpair).symm
    subst hst hk
    refine ⟨rfl, ?_, ?_⟩
    · rw [getN_appendChild_self _ _ _ (by simp; omega)]
      rw [getN_append_left _ _ _ hi]
    · rw [getN_appendChild_ne _ _ _ _ (by omega), getN_append_len]

/-- C7 witness: at `x0 = 1, y0 = 2` the gradient is `[1/2, −1/4]`, and
`5 / node(3)` appends the edge `(1, −5/9)` to the node. -/
theorem c7_quotient_rule_witness :
    AutoDiffR1D (.fn fDiv) [1, 2] = .ok [1 / 2, -(1 / 4)] ∧
    ((1 : Nat) = 1 ∧
      (getN (appendChild
        [{ val := 3, children := [], der := none },
         { val := 5 / 3, children := [], der := none }] 0
        (1, -5 / (3 : ℝ) ^ (2 : ℕ))) 0).children =
        [] ++ [(1, -5 / (3 : ℝ) ^ (2 : ℕ))] ∧
      (getN (appendChild
        [{ val := 3, children := [], der := none },
         { val := 5 / 3, children := [], der := none }] 0
        (1, -5 / (3 : ℝ) ^ (2 : ℕ))) 1).val = 5 / 3) := by
  constructor
  · have h := (c7_quotient_rule 1 2 [] 0 0).1 (by norm_num)
    rw [h]
    norm_num
  · have h := (c7_quotient_rule 1 2
      [{ val := 3, children := [], der := none }] 0 5).2 (by norm_num)
      (appendChild ([{ val := 3, children := [], der := none }] ++
        [{ val := 5 / 3, children := [], der := none }]) 0
        (1, -5 / (3 : ℝ) ^ (2 : ℕ))) 1 ?_
    · simpa [getN, appendChild, setN] using h
    · simp [nodeRtruediv, getN, appendChild, setN]

/-- C8: every graph built solely by the constructor and the overloaded
arithmetic operations has all edges pointing to strictly-later-created
nodes, hence is acyclic (no node reaches itself through edges), and the
recursive memoized backward pass terminates (produces a value within
`st.length` recursion depth) on every node of such a graph. -/
theorem c8_acyclic_termination (st : List Node) (h : Built st) :
    EdgesForward st ∧
    (∀ i, ¬ Relation.TransGen (NodeEdge st) i i) ∧
    (∀ i, i < st.length → ((getGradientF st.length st i).2).isSome = true) := by
  have hE := built_edgesForward st h
  refine ⟨hE, fun i hcyc => lt_irrefl i (transGen_lt st i i hE hcyc), ?_⟩
  intro i hi
  exact getGradientF_isSome st.length st i hE hi (by omega)

/-- C8 witness: a single-leaf graph is built, satisfies the invariant, has
no self-reaching node, and its backward pass terminates. -/
theorem c8_acyclic_termination_witness :
    EdgesForward [{ val := 2, children := [], der := none }] ∧
    (¬ Relation.TransGen
        (NodeEdge [{ val := 2, children := [], der := none }]) 0 0) ∧
    ((getGradientF 1 [{ val := 2, children := [], der := none }] 0).2).isSome
      = true := by
  have hb : Built [{ val := 2, children := [], der := none }] := by
    have h := Built.leaves [(2 : ℝ)]
    simpa using h
  obtain ⟨h1, h2, h3⟩ := c8_acyclic_termination _ hb
  exact ⟨h1, h2 0, h3 0 (by norm_num)⟩

/-- C9: no operation of the engine ever changes the `val` field of an
existing node — each arithmetic operator (reflected forms and negation
included) only creates a new node and appends to children lists, the
backward pass only writes derivative caches, and the driver's seeding step
only writes a derivative. -/
theorem c9_val_immutable (st : List Node) (i : Nat) (o : PyObj)
    (st' : List Node) (k j : Nat) (fuel : Nat) (d : ℝ) :
    (j < st.length →
      (nodeAdd st i o = .ok (st', k) → (getN st' j).val = (getN st j).val) ∧
      (nodeRadd st i o = .ok (st', k) → (getN st' j).val = (getN st j).val) ∧
      (nodeMul st i o = .ok (st', k) → (getN st' j).val = (getN st j).val) ∧
      (nodeRmul st i o = .ok (st', k) → (getN st' j).val = (getN st j).val) ∧
      (nodeTruediv st i o = .ok (st', k) → (getN st' j).val = (getN st j).val) ∧
      (nodeRtruediv st i o = .ok (st', k) → (getN st' j).val = (getN st j).val) ∧
      (nodeSub st i o = .ok (st', k) → (getN st' j).val = (getN st j).val) ∧
      (nodeRsub st i o = .ok (st', k) → (getN st' j).val = (getN st j).val) ∧
      (nodePow st i o = .ok (st', k) → (getN st' j).val = (getN st j).val) ∧
      (nodeRpow st i o = .ok (st', k) → (getN st' j).val = (getN st j).val) ∧
      (nodeNeg st i = .ok (st', k) → (getN st' j).val = (getN st j).val)) ∧
    ((getN (getGradientF fuel st i).1 j).val = (getN st j).val) ∧
    ((getN (setDer st i d) j).val = (getN st j).val) := by
  refine ⟨?_, ((getGradientF_shape fuel st i).2 j).1, val_setDer ..⟩
  intro hj
  have hnum : ∀ (v w : ℝ) (m : Nat) (st2 : List Node) (k2 : Nat),
      (appendChild (st ++ [{ val := v, children := [], der := none }]) m
        (st.length, w), st.length) = (st2, k2) →
      (getN st2 j).val = (getN st j).val := by
    intro v w m st2 k2 hpair
    cases hpair
    exact val_build1 _ _ _ _ _ hj
  have hbin : ∀ (v w1 w2 : ℝ) (m1 m2 : Nat) (st2 : List Node) (k2 : Nat),
      (appendChild
        (appendChild (st ++ [{ val := v, children := [], der := none }]) m1
          (st.length, w1)) m2 (st.length, w2), st.length) = (st2, k2) →
      (getN st2 j).val = (getN st j).val := by
    intro v w1 w2 m1 m2 st2 k2 hpair
    cases hpair
    exact val_build2 _ _ _ _ _ _ _ hj
  refine ⟨?_, ?_, ?_, ?_, ?_, ?_, ?_, ?_, ?_, ?_, ?_⟩
  · intro he
    cases o with
    | num c => simp only [nodeAdd] at he; injection he with hp; exact hnum _ _ _ _ _ hp
    | node m => simp only [nodeAdd] at he; injection he with hp; exact hbin _ _ _ _ _ _ _ hp
    | other => simp [nodeAdd] at he
  · intro he
    cases o with
    | num c => simp only [nodeRadd, nodeAdd] at he; injection he with hp; exact hnum _ _ _ _ _ hp
    | node m => simp only [nodeRadd, nodeAdd] at he; injection he with hp; exact hbin _ _ _ _ _ _ _ hp
    | other => simp [nodeRadd, nodeAdd] at he
  · intro he
    cases o with
    | num c => simp only [nodeMul] at he; injection he with hp; exact hnum _ _ _ _ _ hp
    | node m => simp only [nodeMul] at he; injection he with hp; exact hbin _ _ _ _ _ _ _ hp
    | other => simp [nodeMul] at he
  · intro he
    cases o with
    | num c => simp only [nodeRmul, nodeMul] at he; injection he with hp; exact hnum _ _ _ _ _ hp
    | node m => simp only [nodeRmul, nodeMul] at he; injection he with hp; exact hbin _ _ _ _ _ _ _ hp
    | other => simp [nodeRmul, nodeMul] at he
  · intro he
    cases o with
    | num c => simp only [nodeTruediv] at he; injection he with hp; exact hnum _ _ _ _ _ hp
    | node m => simp only [nodeTruediv] at he; injection he with hp; exact hbin _ _ _ _ _ _ _ hp
    | other => simp [nodeTruediv] at he
  · intro he
    cases o with
    | num c => simp only [nodeRtruediv] at he; injection he with hp; exact hnum _ _ _ _ _ hp
    | node m => simp [nodeRtruediv] at he
    | other => simp [nodeRtruediv] at he
  · intro he
    cases o with
    | num c => simp only [nodeSub] at he; injection he with hp; exact hnum _ _ _ _ _ hp
    | node m => simp only [nodeSub] at he; injection he with hp; exact hbin _ _ _ _ _ _ _ hp
    | other => simp [nodeSub] at he
  · intro he
    cases o with
    | num c => simp only [nodeRsub] at he; injection he with hp; exact hnum _ _ _ _ _ hp
    | node m => simp [nodeRsub] at he
    | other => simp [nodeRsub] at he
  · intro he
    cases o with
    | num c => simp only [nodePow] at he; injection he with hp; exact hnum _ _ _ _ _ hp
    | node m => simp only [nodePow] at he; injection he with hp; exact hbin _ _ _ _ _ _ _ hp
    | other => simp [nodePow] at he
  · intro he
    cases o with
    | num c => simp only [nodeRpow] at he; injection he with hp; exact hnum _ _ _ _ _ hp
    | node m => simp [nodeRpow] at he
    | other => simp [nodeRpow] at he
  · intro he
    simp only [nodeNeg, nodeMul] at he
    injection he with hp
    exact hnum _ _ _ _ _ hp

/-- C9 witness: each operator applied to a live one-node arena leaves the
existing node's value `1` unchanged. -/
theorem c9_val_immutable_witness :
    ((getN [{ val := 1, children := [(1, 1)], der := none }, { val := 3, children := [], der := none }] 0).val = 1) ∧
    ((getN [{ val := 1, children := [(1, 1)], der := none }, { val := 3, children := [], der := none }] 0).val = 1) ∧
    ((getN [{ val := 1, children := [(1, 1), (1, 1)], der := none }, { val := 1, children := [], der := none }] 0).val = 1) ∧
    ((getN [{ val := 1, children := [(1, 2)], der := none }, { val := 2, children := [], der := none }] 0).val = 1) ∧
    ((getN [{ val := 1, children := [(1, 1 / 2)], der := none }, { val := 1 / 2, children := [], der := none }] 0).val = 1) ∧
    ((getN [{ val := 1, children := [(1, -2)], der := none }, { val := 2, children := [], der := none }] 0).val = 1) ∧
    ((getN [{ val := 1, children := [(1, 1)], der := none }, { val := -1, children := [], der := none }] 0).val = 1) ∧
    ((getN [{ val := 1, children := [(1, -1)], der := none }, { val := 1, children := [], der := none }] 0).val = 1) ∧
    ((getN [{ val := 1, children := [(1, 2)], der := none }, { val := 1, children := [], der := none }] 0).val = 1) ∧
    ((getN [{ val := 1, children := [(1, 2 * Real.log 2)], der := none }, { val := 2, children := [], der := none }] 0).val = 1) ∧
    ((getN [{ val := 1, children := [(1, -1)], der := none }, { val := -1, children := [], der := none }] 0).val = 1) := by
  refine ⟨?_, ?_, ?_, ?_, ?_, ?_, ?_, ?_, ?_, ?_, ?_⟩
  · exact ((c9_val_immutable [{ val := 1, children := [], der := none }] 0 (.num 2)
      [{ val := 1, children := [(1, 1)], der := none }, { val := 3, children := [], der := none }] 1 0 1 7).1 (by norm_num)).1
      (by simp [nodeAdd, appendChild, getN, setN] <;> norm_num)
  · exact ((c9_val_immutable [{ val := 1, children := [], der := none }] 0 (.num 2)
      [{ val := 1, children := [(1, 1)], der := none }, { val := 3, children := [], der := none }] 1 0 1 7).1 (by norm_num)).2.1
      (by simp [nodeRadd, nodeAdd, appendChild, getN, setN] <;> norm_num)
  · exact ((c9_val_immutable [{ val := 1, children := [], der := none }] 0 (.node 0)
      [{ val := 1, children := [(1, 1), (1, 1)], der := none }, { val := 1, children := [], der := none }] 1 0 1 7).1 (by norm_num)).2.2.1
      (by simp [nodeMul, appendChild, getN, setN] <;> norm_num)
  · exact ((c9_val_immutable [{ val := 1, children := [], der := none }] 0 (.num 2)
      [{ val := 1, children := [(1, 2)], der := none }, { val := 2, children := [], der := none }] 1 0 1 7).1 (by norm_num)).2.2.2.1
      (by simp [nodeRmul, nodeMul, appendChild, getN, setN] <;> norm_num)
  · exact ((c9_val_immutable [{ val := 1, children := [], der := none }] 0 (.num 2)
      [{ val := 1, children := [(1, 1 / 2)], der := none }, { val := 1 / 2, children := [], der := none }] 1 0 1 7).1 (by norm_num)).2.2.2.2.1
      (by simp [nodeTruediv, appendChild, getN, setN] <;> norm_num)
  · exact ((c9_val_immutable [{ val := 1, children := [], der := none }] 0 (.num 2)
      [{ val := 1, children := [(1, -2)], der := none }, { val := 2, children := [], der := none }] 1 0 1 7).1 (by norm_num)).2.2.2.2.2.1
      (by simp [nodeRtruediv, appendChild, getN, setN] <;> norm_num)
  · exact ((c9_val_immutable [{ val := 1, children := [], der := none }] 0 (.num 2)
      [{ val := 1, children := [(1, 1)], der := none }, { val := -1, children := [], der := none }] 1 0 1 7).1 (by norm_num)).2.2.2.2.2.2.1
      (by simp [nodeSub, appendChild, getN, setN] <;> norm_num)
  · exact ((c9_val_immutable [{ val := 1, children := [], der := none }] 0 (.num 2)
      [{ val := 1, children := [(1, -1)], der := none }, { val := 1, children := [], der := none }] 1 0 1 7).1 (by norm_num)).2.2.2.2.2.2.2.1
      (by simp [nodeRsub, appendChild, getN, setN] <;> norm_num)
  · exact ((c9_val_immutable [{ val := 1, children := [], der := none }] 0 (.num 2)
      [{ val := 1, children := [(1, 2)], der := none }, { val := 1, children := [], der := none }] 1 0 1 7).1 (by norm_num)).2.2.2.2.2.2.2.2.1
      (by simp [nodePow, Real.one_rpow, appendChild, getN, setN] <;> norm_num)
  · exact ((c9_val_immutable [{ val := 1, children := [], der := none }] 0 (.num 2)
      [{ val := 1, children := [(1, 2 * Real.log 2)], der := none }, { val := 2, children := [], der := none }] 1 0 1 7).1 (by norm_num)).2.2.2.2.2.2.2.2.2.1
      (by simp [nodeRpow, Real.rpow_one, appendChild, getN, setN] <;> norm_num)
  · exact ((c9_val_immutable [{ val := 1, children := [], der := none }] 0 (.num 2)
      [{ val := 1, children := [(1, -1)], der := none }, { val := -1, children := [], der := none }] 1 0 1 7).1 (by norm_num)).2.2.2.2.2.2.2.2.2.2
      (by simp [nodeNeg, nodeMul, appendChild, getN, setN] <;> norm_num)
